import Mathlib

/-!
Shallow embedding of the provenance-report core of `src/rust/src/main.rs`
(lines 119-175 of `main`).  The surrounding RPC plumbing (wallet creation,
mining, broadcasting) is an external collaborator; the embedded core receives
the data that plumbing produced:

* the confirmed transaction's id, its raw inputs/outputs, and its wallet-side
  details (optional block height, optional block hash, optional signed fee);
* a ledger lookup `lookup : String -> Option RawTx` modelling
  `get_raw_transaction` on the prior transaction id;
* a script decoder `decode : List Nat -> Option String` modelling
  `Address::from_script(_, Network::Regtest)` (scripts are opaque byte lists,
  decoded addresses are strings);
* the recipient (trader) address string.

Currency amounts are modelled in satoshis (`Nat`): the Rust `Amount` is a
`u64` satoshi count and `to_btc()` followed by `{:.8}` formatting renders
exactly `sats / 10^8` with eight fixed decimals, which `fmt8` reproduces.
The wallet fee is a signed satoshi count (`Int`), matching `SignedAmount`.
Rust panics (`expect`, `unwrap`, out-of-bounds indexing) and propagated `?`
errors both abort the run before the report file is created; they are
modelled as `Except.error` with the error taxonomy of the design document.
-/

inductive PipelineError where
  | LookupFailure
  | IndexOutOfRange
  | AddressDecodeFailure
  | PreconditionViolation
  | ReportWriteFailure
deriving DecidableEq

/-- An input of the raw transaction: `previous_output.txid` and
`previous_output.vout` (lines 129-130). -/
structure TxIn where
  prevTxid : String
  vout : Nat
deriving DecidableEq

/-- An output of a raw transaction: `value` in satoshis and the opaque
`script_pubkey` bytes. -/
structure TxOut where
  value : Nat
  script : List Nat
deriving DecidableEq

/-- A raw transaction as returned by `get_raw_transaction`: ordered inputs
and ordered outputs. -/
structure RawTx where
  input : List TxIn
  output : List TxOut
deriving DecidableEq

/-- Wallet-side transaction details (`get_transaction`): optional confirming
block height and hash inside `info`, and the optional signed fee. -/
structure TxInfo where
  blockheight : Option Nat
  blockhash : Option String
deriving DecidableEq

structure TxDetails where
  info : TxInfo
  fee : Option Int
deriving DecidableEq

/-- The four mutable classification slots of lines 142-145, initialised to
empty address strings and zero amounts. -/
structure Slots where
  traderAddress : String
  traderAmount : Nat
  changeAddress : String
  changeAmount : Nat
deriving DecidableEq

def initSlots : Slots :=
  { traderAddress := "", traderAmount := 0, changeAddress := "", changeAmount := 0 }

/-- The ten resolved report fields, in the order they are written. -/
structure ProvenanceReport where
  txid : String
  inputAddress : String
  inputAmount : Nat
  traderAddress : String
  traderAmount : Nat
  changeAddress : String
  changeAmount : Nat
  fee : Nat
  blockHeight : Nat
  blockHash : String
deriving DecidableEq

/-- The eight fixed fractional digits of a satoshi amount, most significant
first (leading zeros kept). -/
def frac8 (m : Nat) : List Char :=
  (List.range 8).map (fun i => Nat.digitChar (m / 10 ^ (7 - i) % 10))

/-- Rust `{:.8}` formatting of `sats / 10^8` BTC: integer part, a dot, then
exactly eight fractional digits. -/
def fmt8 (sats : Nat) : String :=
  toString (sats / 100000000) ++ "." ++ String.mk (frac8 (sats % 100000000))

/-- One `writeln!` call: appends the line and a terminating newline to the
file contents. -/
def writeLine (content line : String) : String := content ++ line ++ "\n"

/-- The ten `writeln!` calls of lines 166-175, in source order, starting from
the given file contents (`File::create` starts from the empty file). -/
def writeReport (r : ProvenanceReport) (file : String) : String :=
  writeLine (writeLine (writeLine (writeLine (writeLine (writeLine (writeLine
    (writeLine (writeLine (writeLine file r.txid) r.inputAddress)
      (fmt8 r.inputAmount)) r.traderAddress) (fmt8 r.traderAmount))
        r.changeAddress) (fmt8 r.changeAmount)) (fmt8 r.fee))
          (toString r.blockHeight)) r.blockHash

/-- The rendered report fields in the order the serializer writes them. -/
def reportFields (r : ProvenanceReport) : List String :=
  [r.txid, r.inputAddress, fmt8 r.inputAmount, r.traderAddress,
   fmt8 r.traderAmount, r.changeAddress, fmt8 r.changeAmount, fmt8 r.fee,
   toString r.blockHeight, r.blockHash]

/-- One run of the Report Serializer over the destination file:
`File::create` truncates whatever was there and the ten `writeln!` calls
rewrite it, so the previous contents are ignored. -/
def runSerializer (r : ProvenanceReport) (_prev : Option String) : Option String :=
  some (writeReport r "")

/-- The report file contents as the serializer lays them out: each field
followed by a newline, fields in order, nothing before, between or after. -/
def joinLines : List String → String
  | [] => ""
  | f :: rest => f ++ "\n" ++ joinLines rest

/-- The characters of a rendered field after its last dot. -/
def fracPart (s : String) : List Char :=
  (s.data.reverse.takeWhile (fun c => c != '.')).reverse

/-- Lines 147-159: the body of the output loop, as structural recursion.
Each output's script is decoded (`expect` on failure aborts the run); an
output whose decoded address equals the trader address overwrites the trader
slot, any other output overwrites the change slot. -/
def classifyGo (decode : List Nat → Option String) (recipient : String)
    (s : Slots) : List TxOut → Except PipelineError Slots
  | [] => .ok s
  | out :: rest =>
    match decode out.script with
    | none => .error .AddressDecodeFailure
    | some addr =>
      if addr = recipient then
        classifyGo decode recipient
          { s with traderAddress := addr, traderAmount := out.value } rest
      else
        classifyGo decode recipient
          { s with changeAddress := addr, changeAmount := out.value } rest

/-- The Output Classifier: the loop of lines 147-159 run from the empty
slots of lines 142-145. -/
def classifyOutputs (decode : List Nat → Option String) (recipient : String)
    (outs : List TxOut) : Except PipelineError Slots :=
  classifyGo decode recipient initSlots outs

/-- Decodes every output to an (address, amount) pair, in order; `none` if
any script fails to decode. -/
def decodeAll (decode : List Nat → Option String) :
    List TxOut → Option (List (String × Nat))
  | [] => some []
  | out :: rest =>
    match decode out.script, decodeAll decode rest with
    | some a, some l => some ((a, out.value) :: l)
    | _, _ => none

/-- Modelled from the spec: the recipient slot the classification algorithm
of design section 4.2 calls for — the last decoded output whose address
equals the recipient address, or (empty address, zero amount) when none
matches. -/
def specRecipientSlot (recipient : String) (l : List (String × Nat)) : String × Nat :=
  ((l.filter (fun p => p.1 = recipient)).getLast?).getD ("", 0)

/-- Modelled from the spec: the change slot — the last decoded output whose
address differs from the recipient address, or (empty address, zero amount)
when every output matches. -/
def specChangeSlot (recipient : String) (l : List (String × Nat)) : String × Nat :=
  ((l.filter (fun p => ¬ p.1 = recipient)).getLast?).getD ("", 0)

/-- Lines 128-140, the Input Resolver: follow the first input one hop back.
A failed `get_raw_transaction` is a `LookupFailure`; indexing
`output[vout]` out of range is the `IndexOutOfRange` abort; a script that
does not decode to a regtest address is an `AddressDecodeFailure`. -/
def resolveInput (lookup : String → Option RawTx)
    (decode : List Nat → Option String) (txin : TxIn) :
    Except PipelineError (String × Nat) :=
  match lookup txin.prevTxid with
  | none => .error .LookupFailure
  | some prev =>
    match prev.output[txin.vout]? with
    | none => .error .IndexOutOfRange
    | some out =>
      match decode out.script with
      | none => .error .AddressDecodeFailure
      | some addr => .ok (addr, out.value)

/-- Lines 119-126: the confirmation metadata half of the Fee & Metadata
Aggregator.  The two `expect` calls abort the run when the block height or
the block hash is absent; no default is substituted. -/
def getConfirmation (details : TxDetails) : Except PipelineError (Nat × String) :=
  match details.info.blockheight with
  | none => .error .PreconditionViolation
  | some h =>
    match details.info.blockhash with
    | none => .error .PreconditionViolation
    | some hs => .ok (h, hs)

/-- Line 161: `tx_details.fee.unwrap().to_btc().abs()` — the fee half of the
Fee & Metadata Aggregator.  A missing fee aborts the run; a present signed
fee is reported as its absolute value in satoshis. -/
def reportedFee (details : TxDetails) : Except PipelineError Nat :=
  match details.fee with
  | none => .error .PreconditionViolation
  | some f => .ok f.natAbs

/-- The Fee & Metadata Aggregator as one component: confirmation metadata
first (as in lines 119-126), then the fee (line 161). -/
def aggregate (details : TxDetails) : Except PipelineError (Nat × String × Nat) :=
  match getConfirmation details with
  | .error e => .error e
  | .ok conf =>
    match reportedFee details with
    | .error e => .error e
    | .ok fee => .ok (conf.1, conf.2, fee)

/-- Lines 119-175 of `main`, from the point where the confirmed transaction
data is in hand: metadata extraction, input resolution, output
classification, fee normalisation, then the report file contents.  Every
failure aborts before `File::create` runs, so the `Except.ok` payload is the
only file ever produced. -/
def runCore (lookup : String → Option RawTx) (decode : List Nat → Option String)
    (txid : String) (details : TxDetails) (rawTx : RawTx) (recipient : String) :
    Except PipelineError String :=
  match getConfirmation details with
  | .error e => .error e
  | .ok conf =>
    match rawTx.input[0]? with
    | none => .error .PreconditionViolation
    | some firstInput =>
      match resolveInput lookup decode firstInput with
      | .error e => .error e
      | .ok inp =>
        match classifyOutputs decode recipient rawTx.output with
        | .error e => .error e
        | .ok slots =>
          match reportedFee details with
          | .error e => .error e
          | .ok fee =>
            .ok (writeReport
              { txid := txid, inputAddress := inp.1, inputAmount := inp.2,
                traderAddress := slots.traderAddress,
                traderAmount := slots.traderAmount,
                changeAddress := slots.changeAddress,
                changeAmount := slots.changeAmount,
                fee := fee, blockHeight := conf.1, blockHash := conf.2 } "")

/-- The report file a core run leaves behind: the written contents on
success, no file on an aborted run. -/
def reportFile (r : Except PipelineError String) : Option String := r.toOption

/-! ### Helper lemmas on rendering -/

lemma digitChar_isDigit_of_lt_ten : ∀ d < 10, (Nat.digitChar d).isDigit = true := by decide

lemma digitChar_ne_dot_of_lt_ten : ∀ d < 10, (Nat.digitChar d != '.') = true := by decide

lemma frac8_length (m : Nat) : (frac8 m).length = 8 := by
  simp [frac8]

lemma frac8_mem (m : Nat) {c : Char} (hc : c ∈ frac8 m) :
    c.isDigit = true ∧ (c != '.') = true := by
  simp only [frac8, List.mem_map, List.mem_range] at hc
  obtain ⟨i, _, rfl⟩ := hc
  exact ⟨digitChar_isDigit_of_lt_ten _ (Nat.mod_lt _ (by norm_num)),
    digitChar_ne_dot_of_lt_ten _ (Nat.mod_lt _ (by norm_num))⟩

lemma fmt8_data (n : Nat) :
    (fmt8 n).data = (toString (n / 100000000)).data ++ ['.'] ++ frac8 (n % 100000000) := by
  simp [fmt8, String.data_append]

lemma fracPart_fmt8 (n : Nat) : fracPart (fmt8 n) = frac8 (n % 100000000) := by
  unfold fracPart
  rw [fmt8_data]
  rw [List.reverse_append, List.reverse_append]
  simp only [List.reverse_cons, List.reverse_nil, List.nil_append, List.singleton_append]
  rw [List.takeWhile_append_of_pos (by
    intro c hc
    exact (frac8_mem _ (List.mem_reverse.mp hc)).2)]
  rw [List.takeWhile_cons_of_neg (by simp)]
  simp

lemma fmt8_eight_decimals (a : Nat) :
    (fracPart (fmt8 a)).length = 8 ∧ ∀ c ∈ fracPart (fmt8 a), c.isDigit = true := by
  rw [fracPart_fmt8]
  exact ⟨frac8_length _, fun c hc => (frac8_mem _ hc).1⟩

/-- C1: the Report Serializer writes exactly ten fields, one per line and
newline-terminated, in the fixed order txid, input address, input amount,
recipient address, recipient amount, change address, change amount, fee,
block height, block hash — currency amounts with exactly eight fractional
digits, the height rendered as a plain decimal integer, and nothing but the
ten lines in the file. -/
theorem report_serializer_ten_fields (r : ProvenanceReport) :
    writeReport r "" = joinLines (reportFields r) ∧
    (reportFields r).length = 10 ∧
    reportFields r =
      [r.txid, r.inputAddress, fmt8 r.inputAmount, r.traderAddress,
       fmt8 r.traderAmount, r.changeAddress, fmt8 r.changeAmount, fmt8 r.fee,
       toString r.blockHeight, r.blockHash] ∧
    ((fracPart (fmt8 r.inputAmount)).length = 8 ∧
     (fracPart (fmt8 r.traderAmount)).length = 8 ∧
     (fracPart (fmt8 r.changeAmount)).length = 8 ∧
     (fracPart (fmt8 r.fee)).length = 8) ∧
    toString r.blockHeight = Nat.repr r.blockHeight := by
  refine ⟨?_, rfl, rfl, ⟨(fmt8_eight_decimals _).1, (fmt8_eight_decimals _).1,
    (fmt8_eight_decimals _).1, (fmt8_eight_decimals _).1⟩, rfl⟩
  apply String.ext
  simp [writeReport, writeLine, joinLines, reportFields, String.data_append]

/-- C9: running the Report Serializer twice with the same report produces
byte-identical file contents — the run is deterministic and its effect
ignores whatever was in the destination file before. -/
theorem report_serializer_idempotent (r : ProvenanceReport) (prev : Option String) :
    runSerializer r (runSerializer r prev) = runSerializer r prev ∧
    runSerializer r prev = some (writeReport r "") :=
  ⟨rfl, rfl⟩

/-! ### Helper lemmas on the classifier -/

lemma getLast?_cons_getD {α : Type} (x d : α) (xs : List α) :
    ((x :: xs).getLast?).getD d = (xs.getLast?).getD x := by
  cases xs with
  | nil => rfl
  | cons y ys =>
    rw [List.getLast?_cons_cons]
    cases h : (y :: ys).getLast? with
    | none => simp at h
    | some z => rfl

lemma classifyGo_spec (decode : List Nat → Option String) (recipient : String) :
    ∀ (outs : List TxOut) (l : List (String × Nat)) (s : Slots),
      decodeAll decode outs = some l →
      classifyGo decode recipient s outs = .ok
        { traderAddress := (((l.filter (fun p => p.1 = recipient)).getLast?).getD
            (s.traderAddress, s.traderAmount)).1,
          traderAmount := (((l.filter (fun p => p.1 = recipient)).getLast?).getD
            (s.traderAddress, s.traderAmount)).2,
          changeAddress := (((l.filter (fun p => ¬ p.1 = recipient)).getLast?).getD
            (s.changeAddress, s.changeAmount)).1,
          changeAmount := (((l.filter (fun p => ¬ p.1 = recipient)).getLast?).getD
            (s.changeAddress, s.changeAmount)).2 } := by
  intro outs
  induction outs with
  | nil =>
    intro l s h
    simp only [decodeAll, Option.some.injEq] at h
    subst h
    simp [classifyGo]
  | cons out rest ih =>
    intro l s h
    simp only [decodeAll] at h
    cases hd : decode out.script with
    | none => rw [hd] at h; simp at h
    | some a =>
      rw [hd] at h
      cases hrest : decodeAll decode rest with
      | none => rw [hrest] at h; simp at h
      | some l2 =>
        rw [hrest] at h
        simp only [Option.some.injEq] at h
        subst h
        simp only [classifyGo, hd]
        by_cases hal : a = recipient
        · rw [if_pos hal]
          rw [ih l2 _ hrest]
          subst hal
          simp [List.filter_cons, getLast?_cons_getD]
        · rw [if_neg hal]
          rw [ih l2 _ hrest]
          simp [List.filter_cons, getLast?_cons_getD, hal]

lemma decodeAll_mem (decode : List Nat → Option String) :
    ∀ (outs : List TxOut) (l : List (String × Nat)),
      decodeAll decode outs = some l →
      ∀ out ∈ outs, ∃ a, decode out.script = some a ∧ (a, out.value) ∈ l := by
  intro outs
  induction outs with
  | nil => intro l _ out hm; simp at hm
  | cons o rest ih =>
    intro l h out hm
    simp only [decodeAll] at h
    cases hd : decode o.script with
    | none => rw [hd] at h; simp at h
    | some a =>
      rw [hd] at h
      cases hrest : decodeAll decode rest with
      | none => rw [hrest] at h; simp at h
      | some l2 =>
        rw [hrest] at h
        simp only [Option.some.injEq] at h
        subst h
        rcases List.mem_cons.mp hm with rfl | hm2
        · exact ⟨a, hd, List.mem_cons_self _ _⟩
        · obtain ⟨b, hb1, hb2⟩ := ih l2 hrest out hm2
          exact ⟨b, hb1, List.mem_cons_of_mem _ hb2⟩

/-- C2: the Output Classifier decodes every output and assigns it to the
recipient slot exactly when the decoded address equals the recipient
address, to the change slot otherwise: whenever all outputs decode, the run
succeeds and the slots refine the spec-level description — the recipient
slot is the last decoded output equal to the recipient address and the
change slot the last one differing from it. -/
theorem classifier_exact_match (decode : List Nat → Option String)
    (recipient : String) (outs : List TxOut) (l : List (String × Nat))
    (hdec : decodeAll decode outs = some l) :
    classifyOutputs decode recipient outs = .ok
      { traderAddress := (specRecipientSlot recipient l).1,
        traderAmount := (specRecipientSlot recipient l).2,
        changeAddress := (specChangeSlot recipient l).1,
        changeAmount := (specChangeSlot recipient l).2 } :=
  classifyGo_spec decode recipient outs l initSlots hdec

/-- Concrete decoder for witnesses: script [0] is addrA, script [1] is
addrB, anything else fails to decode. -/
def exDecode : List Nat → Option String := fun s =>
  if s = [0] then some "addrA" else if s = [1] then some "addrB" else none

/-- The classification example of design section 8: (addrA, 5 BTC) and
(addrB, 14.99999 BTC), in satoshis. -/
def exOutputs : List TxOut :=
  [{ value := 500000000, script := [0] }, { value := 1499999000, script := [1] }]

theorem classifier_exact_match_witness :
    decodeAll exDecode exOutputs = some [("addrA", 500000000), ("addrB", 1499999000)] ∧
    classifyOutputs exDecode "addrB" exOutputs = .ok
      { traderAddress := "addrB", traderAmount := 1499999000,
        changeAddress := "addrA", changeAmount := 500000000 } := by
  refine ⟨by decide, ?_⟩
  rw [classifier_exact_match exDecode "addrB" exOutputs
    [("addrA", 500000000), ("addrB", 1499999000)] (by decide)]
  exact congrArg Except.ok (by decide)

/-- C3: when more than one output decodes to the recipient address, the
recipient slot of a successful classification holds the last matching
output in iteration order — later matches overwrite earlier assignments. -/
theorem classifier_last_match_wins (decode : List Nat → Option String)
    (recipient : String) (outs : List TxOut) (l : List (String × Nat))
    (hdec : decodeAll decode outs = some l)
    (hmulti : 1 < (l.filter (fun p => p.1 = recipient)).length)
    (s : Slots) (hrun : classifyOutputs decode recipient outs = .ok s) :
    (l.filter (fun p => p.1 = recipient)).getLast? =
      some (s.traderAddress, s.traderAmount) := by
  have h := classifyGo_spec decode recipient outs l initSlots hdec
  rw [classifyOutputs] at hrun
  rw [h] at hrun
  have hs := Except.ok.inj hrun
  obtain ⟨q, hq⟩ : ∃ q, (l.filter (fun p => p.1 = recipient)).getLast? = some q := by
    cases hq2 : (l.filter (fun p => p.1 = recipient)).getLast? with
    | none =>
      rw [List.getLast?_eq_none_iff.mp hq2] at hmulti
      simp at hmulti
    | some q => exact ⟨q, rfl⟩
  rw [hq]
  subst hs
  simp [hq]

/-- Decoder mapping scripts [0] and [1] both to addrB and [2] to addrA, for
the duplicate-recipient witness. -/
def exDecodeDup : List Nat → Option String := fun s =>
  if s = [0] then some "addrB"
  else if s = [1] then some "addrB"
  else if s = [2] then some "addrA" else none

def exOutputsDup : List TxOut :=
  [{ value := 1, script := [0] }, { value := 2, script := [1] },
   { value := 3, script := [2] }]

theorem classifier_last_match_wins_witness :
    1 < ([(("addrB" : String), (1 : Nat)), ("addrB", 2), ("addrA", 3)].filter
          (fun p => p.1 = "addrB")).length ∧
    ([(("addrB" : String), (1 : Nat)), ("addrB", 2), ("addrA", 3)].filter
          (fun p => p.1 = "addrB")).getLast? = some ("addrB", 2) := by
  refine ⟨by decide, ?_⟩
  exact classifier_last_match_wins exDecodeDup "addrB" exOutputsDup
    [("addrB", 1), ("addrB", 2), ("addrA", 3)] (by decide) (by decide)
    { traderAddress := "addrB", traderAmount := 2,
      changeAddress := "addrA", changeAmount := 3 } rfl

/-- C4: when no output decodes to the recipient address, the recipient slot
keeps its initial empty address and zero amount, and every output is
treated as change — the change slot is the fold over all decoded outputs,
ending at the last one. -/
theorem classifier_no_match (decode : List Nat → Option String)
    (recipient : String) (outs : List TxOut) (l : List (String × Nat))
    (hdec : decodeAll decode outs = some l)
    (hnone : ∀ p ∈ l, ¬ p.1 = recipient) :
    classifyOutputs decode recipient outs = .ok
      { traderAddress := "", traderAmount := 0,
        changeAddress := ((l.getLast?).getD ("", 0)).1,
        changeAmount := ((l.getLast?).getD ("", 0)).2 } ∧
    ∀ out ∈ outs, ∃ a, decode out.script = some a ∧ ¬ a = recipient := by
  constructor
  · have h := classifyGo_spec decode recipient outs l initSlots hdec
    have hmatch : l.filter (fun p => p.1 = recipient) = [] := by
      rw [List.filter_eq_nil_iff]
      intro p hp
      simpa using hnone p hp
    have hchange : l.filter (fun p => ¬ p.1 = recipient) = l := by
      rw [List.filter_eq_self]
      intro p hp
      simpa using hnone p hp
    rw [classifyOutputs, h, hmatch, hchange]
    rfl
  · intro out hm
    obtain ⟨a, ha1, ha2⟩ := decodeAll_mem decode outs l hdec out hm
    exact ⟨a, ha1, hnone _ ha2⟩

theorem classifier_no_match_witness :
    classifyOutputs exDecode "nobody" exOutputs = .ok
      { traderAddress := "", traderAmount := 0,
        changeAddress := "addrB", changeAmount := 1499999000 } ∧
    (∃ a, exDecode [0] = some a ∧ ¬ a = "nobody") := by
  have h := classifier_no_match exDecode "nobody" exOutputs
    [("addrA", 500000000), ("addrB", 1499999000)] (by decide) (by decide)
  refine ⟨?_, h.2 { value := 500000000, script := [0] } (by decide)⟩
  rw [h.1]
  exact congrArg Except.ok (by decide)

/-- Modelled from the spec: the total amount of the outputs that do not
match the recipient address. -/
def sumNonRecipient (recipient : String) (l : List (String × Nat)) : Nat :=
  ((l.filter (fun p => ¬ p.1 = recipient)).map Prod.snd).sum

/-- C10 counterexample: with two non-matching outputs of 0 and 5 satoshis,
the classifier reports a change amount (5) that does equal the sum of the
non-matching outputs (0 + 5), so the change amount is not NEVER the sum. -/
theorem classifier_change_amount_equals_sum :
    decodeAll exDecode
        [{ value := 0, script := [0] }, { value := 5, script := [1] }] =
      some [("addrA", 0), ("addrB", 5)] ∧
    1 < ([(("addrA" : String), (0 : Nat)), ("addrB", 5)].filter
          (fun p => ¬ p.1 = "addrC")).length ∧
    classifyOutputs exDecode "addrC"
        [{ value := 0, script := [0] }, { value := 5, script := [1] }] = .ok
      { traderAddress := "", traderAmount := 0,
        changeAddress := "addrB", changeAmount := 5 } ∧
    sumNonRecipient "addrC" [("addrA", 0), ("addrB", 5)] = 5 :=
  ⟨by decide, by decide, rfl, by decide⟩

/-- C10 amended: when more than one output decodes to an address different
from the recipient address, the change slot of a successful classification
holds exactly the address and amount of the last non-matching output in
iteration order — earlier non-matching outputs are dropped, and the change
amount is that last amount rather than the aggregate of the non-matching
outputs (the two coincide only when the earlier non-matching amounts total
zero). -/
theorem classifier_last_change_wins (decode : List Nat → Option String)
    (recipient : String) (outs : List TxOut) (l : List (String × Nat))
    (hdec : decodeAll decode outs = some l)
    (hmulti : 1 < (l.filter (fun p => ¬ p.1 = recipient)).length)
    (s : Slots) (hrun : classifyOutputs decode recipient outs = .ok s) :
    (l.filter (fun p => ¬ p.1 = recipient)).getLast? =
      some (s.changeAddress, s.changeAmount) := by
  have h := classifyGo_spec decode recipient outs l initSlots hdec
  rw [classifyOutputs] at hrun
  rw [h] at hrun
  have hs := Except.ok.inj hrun
  obtain ⟨q, hq⟩ : ∃ q, (l.filter (fun p => ¬ p.1 = recipient)).getLast? = some q := by
    cases hq2 : (l.filter (fun p => ¬ p.1 = recipient)).getLast? with
    | none =>
      rw [List.getLast?_eq_none_iff.mp hq2] at hmulti
      simp at hmulti
    | some q => exact ⟨q, rfl⟩
  subst hs
  simp only [hq, Option.getD_some]

theorem classifier_last_change_wins_witness :
    1 < ([(("addrA" : String), (0 : Nat)), ("addrB", 5)].filter
          (fun p => ¬ p.1 = "addrC")).length ∧
    ([(("addrA" : String), (0 : Nat)), ("addrB", 5)].filter
          (fun p => ¬ p.1 = "addrC")).getLast? = some ("addrB", 5) := by
  refine ⟨by decide, ?_⟩
  exact classifier_last_change_wins exDecode "addrC"
    [{ value := 0, script := [0] }, { value := 5, script := [1] }]
    [("addrA", 0), ("addrB", 5)] (by decide) (by decide)
    { traderAddress := "", traderAmount := 0,
      changeAddress := "addrB", changeAmount := 5 } rfl

/-- C5: the reported fee is the absolute value of the raw wallet fee — a
non-negative magnitude whatever the sign convention of the raw value. -/
theorem fee_absolute_value (details : TxDetails) (f : Int)
    (hf : details.fee = some f) :
    reportedFee details = .ok f.natAbs ∧
    (f.natAbs : Int) = |f| ∧ 0 ≤ (f.natAbs : Int) := by
  refine ⟨?_, Int.natCast_natAbs f, Int.natCast_nonneg _⟩
  simp [reportedFee, hf]

theorem fee_absolute_value_witness :
    reportedFee { info := { blockheight := some 101, blockhash := some "0abc" },
                  fee := some (-15000) } = .ok 15000 ∧
    fmt8 15000 = "0.00015000" := by
  have h := fee_absolute_value
    { info := { blockheight := some 101, blockhash := some "0abc" },
      fee := some (-15000) } (-15000) rfl
  exact ⟨h.1, by decide⟩

/-- C6: when the prior transaction is found but the referenced output index
is not below its output count, the Input Resolver fails with exactly the
IndexOutOfRange error, not any other failure mode. -/
theorem resolver_index_out_of_range (lookup : String → Option RawTx)
    (decode : List Nat → Option String) (txin : TxIn) (prev : RawTx)
    (hfound : lookup txin.prevTxid = some prev)
    (hidx : prev.output.length ≤ txin.vout) :
    resolveInput lookup decode txin = .error .IndexOutOfRange := by
  simp [resolveInput, hfound, List.getElem?_eq_none hidx]

/-- Concrete prior transaction for witnesses: a single 50 BTC output with
script [0]. -/
def exPrev : RawTx :=
  { input := [], output := [{ value := 5000000000, script := [0] }] }

/-- Concrete ledger for witnesses: only the id "prevtx" resolves. -/
def exLookup : String → Option RawTx := fun t =>
  if t = "prevtx" then some exPrev else none

theorem resolver_index_out_of_range_witness :
    exLookup "prevtx" = some exPrev ∧
    resolveInput exLookup exDecode { prevTxid := "prevtx", vout := 1 } =
      .error .IndexOutOfRange := by
  refine ⟨by decide, ?_⟩
  exact resolver_index_out_of_range exLookup exDecode
    { prevTxid := "prevtx", vout := 1 } exPrev (by decide) (by decide)

/-- C7: invoked on a transaction lacking its confirming block height or
block hash, the Fee & Metadata Aggregator fails with PreconditionViolation
and never returns defaulted metadata. -/
theorem aggregator_precondition (details : TxDetails)
    (hmiss : details.info.blockheight = none ∨ details.info.blockhash = none) :
    aggregate details = .error .PreconditionViolation ∧
    getConfirmation details = .error .PreconditionViolation ∧
    ∀ v, getConfirmation details ≠ .ok v := by
  have hconf : getConfirmation details = .error .PreconditionViolation := by
    rcases hmiss with h | h
    · simp [getConfirmation, h]
    · cases hh : details.info.blockheight with
      | none => simp [getConfirmation, hh]
      | some x => simp [getConfirmation, hh, h]
  exact ⟨by simp [aggregate, hconf], hconf, by simp [hconf]⟩

/-- Concrete details with a missing block hash, for the C7 witness. -/
def exDetailsNoHash : TxDetails :=
  { info := { blockheight := some 101, blockhash := none }, fee := some 1000 }

theorem aggregator_precondition_witness :
    aggregate exDetailsNoHash = .error .PreconditionViolation ∧
    ∀ v, getConfirmation exDetailsNoHash ≠ .ok v := by
  have h := aggregator_precondition exDetailsNoHash (Or.inr rfl)
  exact ⟨h.1, h.2.2⟩

lemma classifyGo_decode_fail (decode : List Nat → Option String)
    (recipient : String) :
    ∀ (outs : List TxOut) (s : Slots), (∃ out ∈ outs, decode out.script = none) →
      classifyGo decode recipient s outs = .error .AddressDecodeFailure := by
  intro outs
  induction outs with
  | nil => intro s h; simp at h
  | cons o rest ih =>
    intro s h
    cases hd : decode o.script with
    | none => simp [classifyGo, hd]
    | some a =>
      obtain ⟨out, hm, hout⟩ := h
      rcases List.mem_cons.mp hm with rfl | hm2
      · rw [hd] at hout; cases hout
      · simp only [classifyGo, hd]
        by_cases hal : a = recipient
        · rw [if_pos hal]; exact ih _ ⟨out, hm2, hout⟩
        · rw [if_neg hal]; exact ih _ ⟨out, hm2, hout⟩

/-- C8: if any output of the inspected transaction fails to decode, the
whole core run aborts with AddressDecodeFailure — the serializer is never
reached and no report file is produced. -/
theorem pipeline_decode_failure (lookup : String → Option RawTx)
    (decode : List Nat → Option String) (txid : String) (details : TxDetails)
    (rawTx : RawTx) (recipient : String) (bh : Nat) (bhash : String)
    (txin : TxIn) (prev : RawTx)
    (hh : details.info.blockheight = some bh)
    (hhash : details.info.blockhash = some bhash)
    (hfirst : rawTx.input[0]? = some txin)
    (hfound : lookup txin.prevTxid = some prev)
    (hvout : txin.vout < prev.output.length)
    (hbad : ∃ out ∈ rawTx.output, decode out.script = none) :
    runCore lookup decode txid details rawTx recipient =
      .error .AddressDecodeFailure ∧
    reportFile (runCore lookup decode txid details rawTx recipient) = none := by
  have hconf : getConfirmation details = .ok (bh, bhash) := by
    simp [getConfirmation, hh, hhash]
  have hclass : classifyOutputs decode recipient rawTx.output =
      .error .AddressDecodeFailure :=
    classifyGo_decode_fail decode recipient rawTx.output initSlots hbad
  have hmain : runCore lookup decode txid details rawTx recipient =
      .error .AddressDecodeFailure := by
    cases hpd : decode (prev.output.get ⟨txin.vout, hvout⟩).script with
    | none =>
      have hres : resolveInput lookup decode txin = .error .AddressDecodeFailure := by
        simp [resolveInput, hfound, List.getElem?_eq_getElem hvout,
          List.get_eq_getElem] at hpd ⊢
        simp [hpd]
      simp [runCore, hconf, hfirst, hres]
    | some a =>
      have hres : resolveInput lookup decode txin =
          .ok (a, (prev.output.get ⟨txin.vout, hvout⟩).value) := by
        simp [resolveInput, hfound, List.getElem?_eq_getElem hvout,
          List.get_eq_getElem] at hpd ⊢
        simp [hpd]
      simp [runCore, hconf, hfirst, hres, hclass]
  exact ⟨hmain, by rw [reportFile, hmain]; rfl⟩

/-- A confirmed transaction whose only output carries the undecodable
script [9], spending the single output of exPrev. -/
def exRawBad : RawTx :=
  { input := [{ prevTxid := "prevtx", vout := 0 }],
    output := [{ value := 20, script := [9] }] }

/-- Concrete fully confirmed details, for the C8 witness. -/
def exDetailsOk : TxDetails :=
  { info := { blockheight := some 101, blockhash := some "0abc" }, fee := some 1000 }

theorem pipeline_decode_failure_witness :
    exDecode [9] = none ∧
    runCore exLookup exDecode "txid1" exDetailsOk exRawBad "addrB" =
      .error .AddressDecodeFailure ∧
    reportFile (runCore exLookup exDecode "txid1" exDetailsOk exRawBad "addrB") =
      none := by
  have h := pipeline_decode_failure exLookup exDecode "txid1" exDetailsOk exRawBad
    "addrB" 101 "0abc" { prevTxid := "prevtx", vout := 0 } exPrev rfl rfl rfl
    (by decide) (by decide)
    ⟨{ value := 20, script := [9] }, by decide, by decide⟩
  exact ⟨by decide, h.1, h.2⟩
